import Mathlib

/-!
Verification of the built-in expression-function library
(`src/custom_functions/expression_functions.rs`).

Shallow embedding conventions:
* `IntType` (Rust `i64`) is modelled as `ℤ`; the single place where the
  machine width matters — the `as usize` cast in `substring` — is modelled
  explicitly as reduction modulo `2^64`.
* `FloatType` (Rust `f64`) is modelled as `ℚ`; the library only negates,
  compares and divides floats, and all claims under study depend only on
  exact order/sign behaviour, not on rounding.  IEEE `NaN`/rounding
  artefacts are outside this model.
* Rust `String` is modelled as `List Char`.
* Fallible Rust functions returning `Result<Value, Error>` become
  `Except Error Value`.  Functions that can panic return
  `Option (Except Error Value)`, where `none` models a panic.
* The `Value` type, its projections (`as_int`, `as_float_or_none`,
  `as_boolean_or_none`, `is_empty`) and the `Error` enum live in the crate
  root, which is not part of the provided sources; they are modelled from
  the specification (see the individual doc comments).
* The calendar arithmetic performed through the external `chrono` crate is
  modelled by proleptic-Gregorian civil-date/day-number conversions and a
  strict `%Y.%m.%d %H:%M:%S` parser/printer following chrono's documented
  behaviour (UTC only, year range -262144..=262143, signed years outside
  0000..=9999).
-/

namespace ExprFn

/-- Modelled from the spec: `Value` is "a tagged union of
Empty/Int/Float/Boolean/String"; the crate-root definition is not in the
provided sources. -/
inductive Value where
  | Empty : Value
  | Int : ℤ → Value
  | Float : ℚ → Value
  | Boolean : Bool → Value
  | String : List Char → Value
deriving DecidableEq, Repr

/-- Modelled from the spec: the closed error enum
`CustomError(message) | InvalidArgumentType | InvalidInputString |
InvalidDateFormat`; the crate-root definition is not in the provided
sources. -/
inductive Error where
  | CustomError : List Char → Error
  | InvalidArgumentType : Error
  | InvalidInputString : Error
  | InvalidDateFormat : Error
deriving DecidableEq, Repr

/-- Modelled from the spec: `is_empty()` "is the single predicate used
throughout to test for the null sentinel". -/
def Value.is_empty : Value → Bool
  | .Empty => true
  | _ => false

/-- Modelled from the spec: `as_int` is a fallible numeric projection that
returns the integer payload and yields "a full error" on any other
variant (spec §3); the crate-root definition is not in the provided
sources. -/
def Value.as_int : Value → Except Error ℤ
  | .Int i => .ok i
  | _ => .error .InvalidArgumentType

/-- Modelled from the spec: `as_float_or_none` yields the float payload
(with an `Int` widened to the float domain, spec §4.1), `None` for
"missing/non-numeric" values — which callers turn into `0.0` via
`unwrap_or(0.0)` (spec §4.3) — and never a hard error on the variants the
library feeds it; the crate-root definition is not in the provided
sources. -/
def Value.as_float_or_none : Value → Except Error (Option ℚ)
  | .Float f => .ok (some f)
  | .Int i => .ok (some (i : ℚ))
  | _ => .ok none

/-- Modelled from the spec: `as_boolean_or_none` yields the boolean
payload and `None` otherwise, which callers turn into `false` via
`unwrap_or(false)` (spec §4.3); the crate-root definition is not in the
provided sources. -/
def Value.as_boolean_or_none : Value → Except Error (Option Bool)
  | .Boolean b => .ok (some b)
  | _ => .ok none

/-- Embedded from `is_null` (expression_functions.rs lines 7-12). -/
def is_null (value : Value) : Except Error Value :=
  .ok (match value with
    | .Empty => .Int 0
    | v => v)

/-- Embedded from `negate` (expression_functions.rs lines 12-20).  The
error message interpolates the debug representation of the value; the
exact rendering of `{v:?}` is abstracted by `reprStr`. -/
def negate (value : Value) : Except Error Value :=
  match value with
  | .Empty => .ok .Empty
  | .Int v => .ok (.Int (-v))
  | .Float v => .ok (.Float (-v))
  | .Boolean v => .ok (.Boolean (!v))
  | v => .error (.CustomError (("Cannot negate a value " ++ reprStr v).toList))

/-- Embedded from `is_null_or` (expression_functions.rs lines 22-27). -/
def is_null_or (value alternative : Value) : Except Error Value :=
  .ok (match value with
    | .Empty => alternative
    | v => v)

/-- Embedded from `clip_value_to_range` (expression_functions.rs lines
29-45).  Note the comparisons use the raw `constant_as_float`, not its
absolute value. -/
def clip_value_to_range (value constant : Value) : Except Error Value :=
  match value.as_float_or_none with
  | .error e => .error e
  | .ok vo =>
    match constant.as_float_or_none with
    | .error e => .error e
    | .ok co =>
      let value_as_float := vo.getD 0
      let constant_as_float := co.getD 0
      let adjusted_value :=
        if value_as_float > constant_as_float then
          constant_as_float
        else if value_as_float < -constant_as_float then
          -constant_as_float
        else
          value_as_float
      .ok (.Float adjusted_value)

/-- Embedded from `fallback_with_range_clipping` (expression_functions.rs
lines 47-72). -/
def fallback_with_range_clipping
    (should_use_primary rel_score_long_temp_ps rel_score_long_temp
      range_to_clip empty_value : Value) : Except Error Value :=
  match should_use_primary.as_boolean_or_none with
  | .error e => .error e
  | .ok ob =>
    if ob.getD false then
      if !rel_score_long_temp_ps.is_empty then
        clip_value_to_range rel_score_long_temp_ps range_to_clip
      else
        .ok empty_value
    else
      if !rel_score_long_temp.is_empty then
        clip_value_to_range rel_score_long_temp range_to_clip
      else
        .ok (.Float 0)

/-- Embedded from `abs` (expression_functions.rs lines 76-86).  The
`TryInto<Value>` bound is instantiated at `Value` itself, where the
conversion is the identity and never fails. -/
def abs (value : Value) : Except Error Value :=
  match value with
  | .Float fl => .ok (.Float (if fl < 0 then -fl else fl))
  | .Int nn => .ok (.Int (if nn < 0 then -nn else nn))
  | .Empty => .ok .Empty
  | _ => .error .InvalidArgumentType

/-- Embedded from `safe_divide` (expression_functions.rs lines 87-126).
Integer division is Rust `i64` division (truncation toward zero),
modelled by `Int.div`. -/
def safe_divide (left right : Value) : Except Error Value :=
  match left, right with
  | .Float l, .Float r => if r = 0 then .ok .Empty else .ok (.Float (l / r))
  | .Int l, .Int r => if r = 0 then .ok .Empty else .ok (.Int (Int.tdiv l r))
  | .Float l, .Int r => if r = 0 then .ok .Empty else .ok (.Float (l / (r : ℚ)))
  | .Int l, .Float r => if r = 0 then .ok .Empty else .ok (.Float ((l : ℚ) / r))
  | _, .Empty => .ok .Empty
  | .Empty, _ => .ok .Empty
  | _, _ => .error .InvalidArgumentType

/-- Embedded from `substring` (expression_functions.rs lines 140-153).
The `as usize` casts are two's-complement `i64 → u64` casts, modelled as
`emod 2^64`; the release-mode wrapping addition `start_int + len_int` is
likewise reduced `mod 2^64`.  The byte-slice `&message[start..end]`
panics when `start > end`; a panic is modelled as `none`.  (In a debug
build the same inputs panic earlier, at the overflowing addition.) -/
def substring (message start len : Value) : Option (Except Error Value) :=
  match message with
  | .String msg =>
    match start.as_int with
    | .error e => some (.error e)
    | .ok s =>
      match len.as_int with
      | .error e => some (.error e)
      | .ok l =>
        let start_int : ℕ := (s % (2 : ℤ) ^ 64).toNat
        let len_int : ℕ := (l % (2 : ℤ) ^ 64).toNat
        if start_int < msg.length then
          let sum := (start_int + len_int) % 2 ^ 64
          let e := if sum > msg.length then msg.length else sum
          if start_int ≤ e then
            some (.ok (.String ((msg.drop start_int).take (e - start_int))))
          else
            none
        else
          some (.ok (.String []))
  | _ => some (.ok (.String []))

/-- Embedded from `starts_with` (expression_functions.rs lines 156-165). -/
def starts_with (message prefx : Value) : Except Error Value :=
  match message, prefx with
  | .String m, .String p => .ok (.Boolean (p.isPrefixOf m))
  | _, _ => .ok (.Boolean false)

/-- Embedded from `ends_with` (expression_functions.rs lines 167-176). -/
def ends_with (message suffix : Value) : Except Error Value :=
  match message, suffix with
  | .String m, .String s => .ok (.Boolean (s.isSuffixOf m))
  | _, _ => .ok (.Boolean false)

/-- Embedded from `ternary` (expression_functions.rs lines 178-188). -/
def ternary (condition true_value false_value : Value) : Except Error Value :=
  match condition with
  | .Boolean cond => if cond then .ok true_value else .ok false_value
  | _ => .error (.CustomError ("First parameter must be a boolean".toList))

end ExprFn

namespace ExprFn

/-- Coerced float view of a `Value`, as produced by
`as_float_or_none(..)?.unwrap_or(0.0)`; used to state the clipping
claims. -/
def floatOf : Value → ℚ
  | .Float f => f
  | .Int i => (i : ℚ)
  | _ => 0

/-- Coerced boolean view of a `Value`, as produced by
`as_boolean_or_none(..)?.unwrap_or(false)`. -/
def boolOf : Value → Bool
  | .Boolean b => b
  | _ => false

/-- Rational absolute value, written with `if` to keep statements free of
ambiguity with the library's own `abs`. -/
def absQ (q : ℚ) : ℚ :=
  if q < 0 then -q else q

/-- Numeric `Value`s are exactly the `Int` and `Float` variants. -/
def Value.isNumeric : Value → Bool
  | .Int _ => true
  | .Float _ => true
  | _ => false

/-- Numeric payload of a `Value` (0 for non-numeric variants); used to
state "the divisor is numeric zero". -/
def Value.numericValue : Value → ℚ
  | .Int i => (i : ℚ)
  | .Float f => f
  | _ => 0

end ExprFn

section SimpleClaims

open ExprFn (Value Error floatOf boolOf absQ clip_value_to_range
  fallback_with_range_clipping safe_divide negate ternary substring
  is_null is_null_or starts_with ends_with)

/-- Evaluation lemma: `clip_value_to_range` always succeeds and returns
the raw-bound clamp of the coerced floats. -/
theorem ExprFn.clip_eval (v b : Value) :
    clip_value_to_range v b =
      .ok (.Float
        (if floatOf v > floatOf b then floatOf b
         else if floatOf v < -floatOf b then -floatOf b
         else floatOf v)) := by
  cases v <;> cases b <;> rfl

/-- C2 counterexample: with a `String` message but a non-integer `start`,
`as_int` fails and `substring` returns an `Err`, contradicting "returns
Ok (never an Err)" for every triple of `Value` arguments. -/
theorem C2_substring_err_counterexample :
    substring (Value.String ("a".toList)) (Value.String ("b".toList))
        (Value.Int 0) =
      some (.error .InvalidArgumentType) := rfl

/-- C2 amended: `substring` returns `Ok(String(""))` whenever `message`
is not a `String` variant; when `message` is a `String`, `start` and
`len` are projected with `as_int`, whose error is propagated for a
non-`Int` `start` or `len`; when both are `Int` and `start`, cast to
unsigned, is at or beyond the string's length, the result is
`Ok(String(""))`. -/
theorem C2_substring_amended (m s l : Value) :
    ((∀ c, m ≠ .String c) → substring m s l = some (.ok (.String []))) ∧
    (∀ msg e, m = .String msg → s.as_int = .error e →
      substring m s l = some (.error e)) ∧
    (∀ msg i e, m = .String msg → s = .Int i → l.as_int = .error e →
      substring m s l = some (.error e)) ∧
    (∀ msg i j, m = .String msg → s = .Int i → l = .Int j →
      msg.length ≤ (i % (2 : ℤ) ^ 64).toNat →
      substring m s l = some (.ok (.String []))) := by
  refine ⟨?_, ?_, ?_, ?_⟩
  · intro h
    cases m with
    | String c => exact absurd rfl (h c)
    | Empty => rfl
    | Int i => rfl
    | Float f => rfl
    | Boolean b => rfl
  · intro msg e hm hs
    subst hm
    simp [substring, hs]
  · intro msg i e hm hs hl
    subst hm; subst hs
    have h1 : (Value.Int i).as_int = .ok i := rfl
    simp only [substring, h1, hl]
  · intro msg i j hm hs hl hlen
    subst hm; subst hs; subst hl
    simp only [substring, ExprFn.Value.as_int]
    rw [if_neg (by omega)]

/-- C2 amended, witness: a `String` message with `start` past the end
yields the empty string. -/
theorem C2_substring_amended_witness :
    substring (Value.String ("ab".toList)) (Value.Int 5) (Value.Int 1) =
      some (.ok (.String [])) :=
  (C2_substring_amended _ _ _).2.2.2 _ 5 1 rfl rfl rfl (by decide)

/-- C3 failing input: `substring("hello", 1, -1)` panics.  The negative
length casts to `2^64 - 1`; the release-mode wrapping sum is `0`, so the
byte slice is taken as `[1..0]`, which panics (a debug build already
panics at the overflowing addition).  `none` is the model's panic. -/
theorem C3_substring_panic :
    substring (Value.String ("hello".toList)) (Value.Int 1)
        (Value.Int (-1)) =
      none := rfl

/-- C4 counterexample: with the negative bound `-1` the in-range value
`0` is not returned unchanged — the code clamps with the raw bound, not
its absolute value, so the result is `Float (-1)` although
`0 ∈ [-|-1|, |-1|]`. -/
theorem C4_clip_counterexample :
    clip_value_to_range (Value.Float 0) (Value.Float (-1)) =
        .ok (.Float (-1)) ∧
      clip_value_to_range (Value.Float 0) (Value.Float (-1)) ≠
        .ok (.Float 0) := by
  constructor
  · rfl
  · rw [ExprFn.clip_eval]
    simp only [ne_eq, Except.ok.injEq, ExprFn.Value.Float.injEq]
    norm_num [ExprFn.floatOf]

/-- C4 amended: `clip_value_to_range` coerces both arguments to float
(`Empty`/non-numeric as `0.0`) and always returns `Float` of `bound` if
`value > bound`, `-bound` if `value < -bound`, else `value`; the result
always lies in `[-|bound|, |bound|]`, and an in-range value is returned
unchanged provided the bound is non-negative. -/
theorem C4_clip_amended (v b : Value) :
    ∃ r : ℚ, clip_value_to_range v b = .ok (.Float r) ∧
      -absQ (floatOf b) ≤ r ∧ r ≤ absQ (floatOf b) ∧
      (0 ≤ floatOf b → -floatOf b ≤ floatOf v → floatOf v ≤ floatOf b →
        r = floatOf v) := by
  rw [ExprFn.clip_eval]
  refine ⟨_, rfl, ?_, ?_, ?_⟩
  · simp only [ExprFn.absQ]
    split_ifs <;> linarith
  · simp only [ExprFn.absQ]
    split_ifs <;> linarith
  · intro h1 h2 h3
    split_ifs <;> linarith

/-- C4 amended, witness: the in-range value `1/2` with bound `1` is
returned unchanged as a `Float`. -/
theorem C4_clip_amended_witness :
    clip_value_to_range (Value.Float (1 / 2)) (Value.Float 1) =
      .ok (.Float (1 / 2)) := by
  obtain ⟨r, h1, -, -, h4⟩ :=
    C4_clip_amended (Value.Float (1 / 2)) (Value.Float 1)
  rw [h4 (by norm_num [ExprFn.floatOf]) (by norm_num [ExprFn.floatOf])
    (by norm_num [ExprFn.floatOf])] at h1
  exact h1

/-- C5: `fallback_with_range_clipping` selects `primary` (range-clipped)
or the `empty_default` when `use_primary` coerces to true, and
`secondary` (range-clipped) or `Float(0.0)` when it coerces to false. -/
theorem C5_fallback_with_range_clipping (u p s b d : Value) :
    fallback_with_range_clipping u p s b d =
      if boolOf u then
        (if p.is_empty then .ok d else clip_value_to_range p b)
      else
        (if s.is_empty then .ok (.Float 0) else clip_value_to_range s b) := by
  cases u <;>
    cases hp : p.is_empty <;>
      cases hs : s.is_empty <;>
        simp [fallback_with_range_clipping, ExprFn.Value.as_boolean_or_none,
          ExprFn.boolOf, hp, hs]

/-- C7: whenever the divisor is a numeric zero (`Int 0` or `Float 0.0`),
`safe_divide` returns `Ok(Empty)` for every numeric dividend — never an
error and never an infinity. -/
theorem C7_safe_divide_zero_divisor (x d : Value)
    (hx : x.isNumeric = true) (hd : d.isNumeric = true)
    (hzero : d.numericValue = 0) :
    safe_divide x d = .ok .Empty := by
  cases x <;> cases d <;>
    simp_all [ExprFn.Value.isNumeric, ExprFn.Value.numericValue, safe_divide]

/-- C7 witness: `5 / 0` and `2.0 / 0.0` both yield `Empty`. -/
theorem C7_safe_divide_zero_divisor_witness :
    safe_divide (Value.Int 5) (Value.Int 0) = .ok .Empty ∧
      safe_divide (Value.Float 2) (Value.Float 0) = .ok .Empty :=
  ⟨C7_safe_divide_zero_divisor _ _ rfl rfl rfl,
   C7_safe_divide_zero_divisor _ _ rfl rfl rfl⟩

/-- C8: for every non-`Empty` numeric value, `abs(negate(v)) = abs(v)`. -/
theorem C8_abs_negate (v : Value) (h : v.isNumeric = true) :
    (negate v).bind ExprFn.abs = ExprFn.abs v := by
  cases v with
  | Int i =>
      simp only [negate, Except.bind, ExprFn.abs]
      have : (if -i < 0 then -(-i) else -i) = (if i < 0 then -i else i) := by
        split_ifs <;> omega
      rw [this]
  | Float f =>
      simp only [negate, Except.bind, ExprFn.abs]
      have : (if -f < 0 then -(-f) else -f) = (if f < 0 then -f else f) := by
        split_ifs <;> linarith
      rw [this]
  | Empty => simp [ExprFn.Value.isNumeric] at h
  | Boolean b => simp [ExprFn.Value.isNumeric] at h
  | String s => simp [ExprFn.Value.isNumeric] at h

/-- C8 witness: `abs(negate(-3)) = abs(-3)`. -/
theorem C8_abs_negate_witness :
    (negate (Value.Int (-3))).bind ExprFn.abs = ExprFn.abs (Value.Int (-3)) :=
  C8_abs_negate _ rfl

/-- C9: `ternary` returns the first branch on `Boolean(true)`, the second
on `Boolean(false)`, and a `CustomError` for every non-`Boolean`
condition (`Empty`, `Int`, `Float`, `String`). -/
theorem C9_ternary (cond a b : Value) :
    ternary cond a b =
      match cond with
      | .Boolean true => .ok a
      | .Boolean false => .ok b
      | .Empty => .error (.CustomError ("First parameter must be a boolean".toList))
      | .Int _ => .error (.CustomError ("First parameter must be a boolean".toList))
      | .Float _ => .error (.CustomError ("First parameter must be a boolean".toList))
      | .String _ => .error (.CustomError ("First parameter must be a boolean".toList)) := by
  cases cond with
  | Boolean bb => cases bb <;> rfl
  | Empty => rfl
  | Int i => rfl
  | Float f => rfl
  | String s => rfl

end SimpleClaims

namespace ExprFn

/-- Naive UTC datetime, the parse result of `%Y.%m.%d %H:%M:%S`. -/
structure NaiveDateTime where
  year : ℤ
  month : ℕ
  day : ℕ
  hour : ℕ
  minute : ℕ
  second : ℕ
deriving DecidableEq, Repr

/-- Proleptic-Gregorian leap-year predicate (chrono's calendar). -/
def isLeap (y : ℤ) : Bool :=
  (y % 4 == 0 && y % 100 != 0) || y % 400 == 0

/-- Length of a calendar month in the proleptic Gregorian calendar. -/
def daysInMonth (y : ℤ) (m : ℕ) : ℕ :=
  match m with
  | 1 => 31
  | 2 => if isLeap y then 29 else 28
  | 3 => 31
  | 4 => 30
  | 5 => 31
  | 6 => 30
  | 7 => 31
  | 8 => 31
  | 9 => 30
  | 10 => 31
  | 11 => 30
  | 12 => 31
  | _ => 0

/-- Days from the start of a March-based year to the start of shifted
month `mp` (0 = March, …, 11 = February); Hinnant's month polynomial. -/
def doyOfMp (mp : ℕ) : ℕ := (153 * mp + 2) / 5

/-- Days from the start of a 400-year era to the start of its internal
(March-based) year `yoe ∈ [0,399]`. -/
def yearStart (yoe : ℕ) : ℕ := 365 * yoe + yoe / 4 - yoe / 100

/-- Start of the internal year after `yoe`, capped by the era length. -/
def nextStart (yoe : ℕ) : ℕ :=
  if yoe = 399 then 146097 else yearStart (yoe + 1)

/-- Hinnant's year-of-era extraction polynomial: on `[0, 146097)` its
value divided by 365 is the internal year containing the day. -/
def yoePoly (doe : ℕ) : ℕ :=
  doe - doe / 1460 + doe / 36524 - doe / 146096

/-- Internal year / shifted month / zero-based day from a day-of-era. -/
def fromDoe (doe : ℕ) : ℕ × ℕ × ℕ :=
  let yoe := yoePoly doe / 365
  let doy := doe - yearStart yoe
  let mp := (5 * doy + 2) / 153
  let d0 := doy - doyOfMp mp
  (yoe, mp, d0)

/-- Civil date from a day number (days since 1970-01-01); Hinnant's
`civil_from_days`, the standard model of chrono's proleptic-Gregorian
date arithmetic.  Divisions are Euclidean (`Int` `/`/`%`), which agree
with the floor divisions of the algorithm since the divisors are
positive. -/
def civilFromDays (z : ℤ) : ℤ × ℕ × ℕ :=
  let z' := z + 719468
  let era := z' / 146097
  let doe := (z' % 146097).toNat
  let p := fromDoe doe
  let y := era * 400 + (p.1 : ℤ)
  if p.2.1 < 10 then (y, p.2.1 + 3, p.2.2 + 1) else (y + 1, p.2.1 - 9, p.2.2 + 1)

/-- Day number (days since 1970-01-01) from a civil date; Hinnant's
`days_from_civil`. -/
def daysFromCivil (y : ℤ) (m d : ℕ) : ℤ :=
  let ys := if m ≤ 2 then y - 1 else y
  let era := ys / 400
  let yoe := (ys - era * 400).toNat
  let mp := if m > 2 then m - 3 else m + 9
  let doe := yearStart yoe + doyOfMp mp + (d - 1)
  era * 146097 + (doe : ℤ) - 719468

/-- Days since the last Sunday for day number `z`; chrono's
`weekday().num_days_from_sunday()`.  Day 0 (1970-01-01) was a Thursday,
four days after Sunday. -/
def num_days_from_sunday (z : ℤ) : ℤ := (z + 4) % 7

/-- Linear core of the monotonicity argument for the year polynomial,
kept free of division terms. -/
theorem yoePoly_mono_step (n a b c a' b' c' : ℕ)
    (h1 : a' = a ∨ a' = a + 1)
    (h2 : b' = b ∨ b' = b + 1)
    (h3 : c' = c ∨ (c' = c + 1 ∧ b' = b + 1))
    (ha : a ≤ n) (hc : c ≤ b) (hc' : c' ≤ b') :
    n - a + b - c ≤ n + 1 - a' + b' - c' := by omega

/-- Monotonicity of the year-extraction polynomial: its three correction
terms never overtake the linear term (`146096 = 4 * 36524` couples the
last two). -/
theorem yoePoly_mono : Monotone yoePoly := by
  apply monotone_nat_of_le_succ
  intro n
  have h36 : (36524 : ℕ) ∣ 146096 := by norm_num
  have h1 := Nat.succ_div n 1460
  have h2 := Nat.succ_div n 36524
  have h3 := Nat.succ_div n 146096
  have e1 : (n + 1) / 1460 = n / 1460 ∨ (n + 1) / 1460 = n / 1460 + 1 := by
    by_cases d1 : 1460 ∣ n + 1
    · right; rw [if_pos d1] at h1; exact h1
    · left; rw [if_neg d1] at h1; simpa using h1
  have e2 : (n + 1) / 36524 = n / 36524 ∨ (n + 1) / 36524 = n / 36524 + 1 := by
    by_cases d2 : 36524 ∣ n + 1
    · right; rw [if_pos d2] at h2; exact h2
    · left; rw [if_neg d2] at h2; simpa using h2
  have e3 : (n + 1) / 146096 = n / 146096 ∨
      ((n + 1) / 146096 = n / 146096 + 1 ∧
        (n + 1) / 36524 = n / 36524 + 1) := by
    by_cases d3 : 146096 ∣ n + 1
    · right
      refine ⟨by rw [if_pos d3] at h3; exact h3, ?_⟩
      have d2 : 36524 ∣ n + 1 := dvd_trans h36 d3
      rw [if_pos d2] at h2; exact h2
    · left; rw [if_neg d3] at h3; simpa using h3
  have ha : n / 1460 ≤ n := Nat.div_le_self n 1460
  have hb : n / 146096 ≤ n / 36524 := by
    rw [show (146096 : ℕ) = 36524 * 4 by norm_num, ← Nat.div_div_eq_div_mul]
    exact Nat.div_le_self _ 4
  have hb' : (n + 1) / 146096 ≤ (n + 1) / 36524 := by
    rw [show (146096 : ℕ) = 36524 * 4 by norm_num, ← Nat.div_div_eq_div_mul]
    exact Nat.div_le_self _ 4
  unfold yoePoly
  exact yoePoly_mono_step n _ _ _ _ _ _ e1 e2 e3 ha hb hb'

/-- Value of the year polynomial on the last day of an era. -/
theorem yoePoly_last : yoePoly 146096 = 145999 := by norm_num [yoePoly]

set_option maxHeartbeats 2000000 in
set_option maxRecDepth 8000 in
/-- Per-internal-year facts checked over one 400-year era: the year
polynomial is exact at year starts, stays below the next multiple of 365
at year ends, and year lengths are between 365 and 366 days. -/
theorem yearTable : ∀ yoe < 400,
    yoePoly (yearStart yoe) = 365 * yoe ∧
    yoePoly (nextStart yoe - 1) ≤ 365 * yoe + 364 ∧
    yearStart yoe < nextStart yoe ∧
    nextStart yoe - yearStart yoe ≤ 366 ∧
    365 ≤ nextStart yoe - yearStart yoe ∧
    nextStart yoe ≤ 146097 := by decide

/-- Correctness of the year extraction: every day-of-era lands in the
internal year the polynomial computes. -/
theorem yoe_correct (doe : ℕ) (h : doe < 146097) :
    yearStart (yoePoly doe / 365) ≤ doe ∧
    doe < nextStart (yoePoly doe / 365) ∧
    yoePoly doe / 365 < 400 := by
  have hdm := Nat.div_add_mod (yoePoly doe) 365
  have hmlt : yoePoly doe % 365 < 365 := Nat.mod_lt _ (by norm_num)
  set y := yoePoly doe / 365 with hy
  have hylast : y ≤ 399 := by
    have h1 : yoePoly doe ≤ 145999 := by
      have hmono := yoePoly_mono (show doe ≤ 146096 by omega)
      rwa [yoePoly_last] at hmono
    have h2 : y ≤ 145999 / 365 := hy ▸ Nat.div_le_div_right h1
    norm_num at h2
    exact h2
  have hy400 : y < 400 := by omega
  refine ⟨?_, ?_, hy400⟩
  · by_cases hy0 : y = 0
    · rw [hy0]
      simp [yearStart]
    · by_contra hlt
      push_neg at hlt
      obtain ⟨t1, t2, t3, t4, t5, t6⟩ := yearTable (y - 1) (by omega)
      have hns : nextStart (y - 1) = yearStart y := by
        unfold nextStart
        rw [if_neg (by omega)]
        congr 1
        omega
      have hmono : yoePoly doe ≤ yoePoly (nextStart (y - 1) - 1) :=
        yoePoly_mono (by omega)
      omega
  · by_contra hge
    push_neg at hge
    by_cases hy399 : y = 399
    · have : nextStart y = 146097 := by unfold nextStart; rw [if_pos hy399]
      omega
    · have hns : nextStart y = yearStart (y + 1) := by
        unfold nextStart; rw [if_neg hy399]
      have t1 := (yearTable (y + 1) (by omega)).1
      have hmono : yoePoly (yearStart (y + 1)) ≤ yoePoly doe :=
        yoePoly_mono (by omega)
      omega

set_option maxHeartbeats 2000000 in
set_option maxRecDepth 8000 in
/-- Per-day-of-year facts checked over the 366 possible values: the month
polynomial brackets each day of year within its shifted month. -/
theorem monthTable : ∀ doy < 366,
    doyOfMp ((5 * doy + 2) / 153) ≤ doy ∧
    doy < doyOfMp ((5 * doy + 2) / 153 + 1) ∧
    (5 * doy + 2) / 153 < 12 := by decide

/-- Reassembling the parts extracted by `fromDoe` recovers the
day-of-era. -/
theorem toDoe_fromDoe (doe : ℕ) (h : doe < 146097) :
    yearStart (fromDoe doe).1 + doyOfMp (fromDoe doe).2.1 + (fromDoe doe).2.2
      = doe := by
  obtain ⟨hy1, hy2, hy3⟩ := yoe_correct doe h
  have hdoy : doe - yearStart (yoePoly doe / 365) < 366 := by
    have h4 := (yearTable _ hy3).2.2.2.1
    have h3 := (yearTable _ hy3).2.2.1
    omega
  obtain ⟨hm1, hm2, hm3⟩ := monthTable _ hdoy
  simp only [fromDoe]
  omega

/-- Leap years are periodic with period 400. -/
theorem isLeap_mul400 (e k : ℤ) : isLeap (e * 400 + k) = isLeap k := by
  unfold isLeap
  have h4 : (e * 400 + k) % 4 = k % 4 := by
    rw [show e * 400 = e * 100 * 4 by ring, add_comm, Int.add_mul_emod_self]
  have h100 : (e * 400 + k) % 100 = k % 100 := by
    rw [show e * 400 = e * 4 * 100 by ring, add_comm, Int.add_mul_emod_self]
  have h400 : (e * 400 + k) % 400 = k % 400 := by
    rw [add_comm, Int.add_mul_emod_self]
  rw [h4, h100, h400]

set_option maxHeartbeats 2000000 in
set_option maxRecDepth 8000 in
/-- Internal years of length 366 are exactly the ones whose February
belongs to a leap calendar year (checked over one era). -/
theorem leapTable : ∀ yoe < 400,
    (nextStart yoe - yearStart yoe = 366 → isLeap ((yoe : ℤ) + 1) = true) := by
  decide

/-- Converting a day number to a civil date and back is the identity:
`days_from_civil` is a left inverse of `civil_from_days`. -/
theorem daysFromCivil_civilFromDays (z : ℤ) :
    daysFromCivil (civilFromDays z).1 (civilFromDays z).2.1
      (civilFromDays z).2.2 = z := by
  have hnn : 0 ≤ (z + 719468) % 146097 := Int.emod_nonneg _ (by norm_num)
  have hub : (z + 719468) % 146097 < 146097 :=
    Int.emod_lt_of_pos _ (by norm_num)
  set E := (z + 719468) / 146097 with hE
  set doe := ((z + 719468) % 146097).toNat with hdoe
  have hcast : (doe : ℤ) = (z + 719468) % 146097 := Int.toNat_of_nonneg hnn
  have hdiv := Int.ediv_add_emod (z + 719468) 146097
  rw [← hE, ← hcast] at hdiv
  have hdoelt : doe < 146097 := by omega
  have htd := toDoe_fromDoe doe hdoelt
  have hy3 := (yoe_correct doe hdoelt).2.2
  rcases hfd : fromDoe doe with ⟨yoe, mp, d0⟩
  have hyoe : yoe = yoePoly doe / 365 := by
    have h := congrArg (fun t => t.1) hfd
    simpa [fromDoe] using h.symm
  have hyoe400 : yoe < 400 := hyoe ▸ hy3
  have htd' : yearStart yoe + doyOfMp mp + d0 = doe := by
    rw [hfd] at htd
    simpa using htd
  have hmp12 : mp < 12 := by
    have hy12 := (yoe_correct doe hdoelt).1
    have hy2 := (yoe_correct doe hdoelt).2.1
    have h4 := (yearTable _ hy3).2.2.2.1
    have h3 := (yearTable _ hy3).2.2.1
    have hdoy : doe - yearStart (yoePoly doe / 365) < 366 := by omega
    have h := (monthTable _ hdoy).2.2
    have hmpe : mp = (5 * (doe - yearStart (yoePoly doe / 365)) + 2) / 153 := by
      have h2 := congrArg (fun t => t.2.1) hfd
      simpa [fromDoe] using h2.symm
    omega
  have hera : (E * 400 + (yoe : ℤ)) / 400 = E := by
    rw [add_comm, Int.add_mul_ediv_right _ _ (show (400 : ℤ) ≠ 0 by norm_num)]
    have h0 : ((yoe : ℤ)) / 400 = 0 :=
      Int.ediv_eq_zero_of_lt (by positivity) (by exact_mod_cast hyoe400)
    omega
  by_cases hq : mp < 10
  · have hc : civilFromDays z = (E * 400 + (yoe : ℤ), mp + 3, d0 + 1) := by
      simp only [civilFromDays]
      rw [← hE, ← hdoe, hfd]
      simp [hq]
    rw [hc]
    simp only [daysFromCivil]
    rw [if_neg (show ¬(mp + 3 ≤ 2) by omega),
      if_pos (show mp + 3 > 2 by omega), hera]
    have hts : (E * 400 + (yoe : ℤ) - E * 400).toNat = yoe := by omega
    rw [hts, show mp + 3 - 3 = mp from rfl, show d0 + 1 - 1 = d0 from rfl, htd']
    omega
  · have hc : civilFromDays z = (E * 400 + (yoe : ℤ) + 1, mp - 9, d0 + 1) := by
      simp only [civilFromDays]
      rw [← hE, ← hdoe, hfd]
      simp [hq]
    rw [hc]
    simp only [daysFromCivil]
    rw [if_pos (show mp - 9 ≤ 2 by omega),
      if_neg (show ¬(mp - 9 > 2) by omega),
      show E * 400 + (yoe : ℤ) + 1 - 1 = E * 400 + (yoe : ℤ) by ring, hera]
    have hts : (E * 400 + (yoe : ℤ) - E * 400).toNat = yoe := by omega
    rw [hts, show mp - 9 + 9 = mp by omega,
      show d0 + 1 - 1 = d0 from rfl, htd']
    omega

/-- Output of `civil_from_days` is a valid civil date: the month is in
`[1,12]` and the day within the month's length (with February's length
decided by the leap status of the civil year). -/
theorem civilFromDays_valid (z : ℤ) :
    1 ≤ (civilFromDays z).2.1 ∧ (civilFromDays z).2.1 ≤ 12 ∧
    1 ≤ (civilFromDays z).2.2 ∧
    (civilFromDays z).2.2 ≤
      daysInMonth (civilFromDays z).1 (civilFromDays z).2.1 := by
  have hnn : 0 ≤ (z + 719468) % 146097 := Int.emod_nonneg _ (by norm_num)
  have hub : (z + 719468) % 146097 < 146097 :=
    Int.emod_lt_of_pos _ (by norm_num)
  set E := (z + 719468) / 146097 with hE
  set doe := ((z + 719468) % 146097).toNat with hdoe
  have hdoelt : doe < 146097 := by omega
  obtain ⟨hy1, hy2, hy3⟩ := yoe_correct doe hdoelt
  have hlen366 := (yearTable _ hy3).2.2.2.1
  have hltns := (yearTable _ hy3).2.2.1
  have hdoy : doe - yearStart (yoePoly doe / 365) < 366 := by omega
  obtain ⟨hm1, hm2, hm3⟩ := monthTable _ hdoy
  rcases hfd : fromDoe doe with ⟨yoe, mp, d0⟩
  have hyoe : yoe = yoePoly doe / 365 := by
    have h := congrArg (fun t => t.1) hfd
    simpa [fromDoe] using h.symm
  have hyoe400 : yoe < 400 := hyoe ▸ hy3
  have hmpe : mp = (5 * (doe - yearStart yoe) + 2) / 153 := by
    have h2 := congrArg (fun t => t.2.1) hfd
    rw [hyoe]
    simpa [fromDoe] using h2.symm
  have hd0e : d0 = doe - yearStart yoe - doyOfMp mp := by
    have h2 := congrArg (fun t => t.2.2) hfd
    rw [hmpe, hyoe]
    simpa [fromDoe] using h2.symm
  have hm1' : doyOfMp mp ≤ doe - yearStart yoe := by
    rw [hmpe, hyoe]; exact hm1
  have hm2' : doe - yearStart yoe < doyOfMp (mp + 1) := by
    rw [hmpe, hyoe]; exact hm2
  have hm3' : mp < 12 := by rw [hmpe, hyoe]; exact hm3
  have hy1' : yearStart yoe ≤ doe := by rw [hyoe]; exact hy1
  have hy2' : doe < nextStart yoe := by rw [hyoe]; exact hy2
  have hlen366' : nextStart yoe - yearStart yoe ≤ 366 := by
    rw [hyoe]; exact hlen366
  by_cases hq : mp < 10
  · have hc : civilFromDays z = (E * 400 + (yoe : ℤ), mp + 3, d0 + 1) := by
      simp only [civilFromDays]
      rw [← hE, ← hdoe, hfd]
      simp [hq]
    rw [hc]
    refine ⟨show 1 ≤ mp + 3 by omega, show mp + 3 ≤ 12 by omega,
      show 1 ≤ d0 + 1 by omega, ?_⟩
    show d0 + 1 ≤ daysInMonth (E * 400 + (yoe : ℤ)) (mp + 3)
    interval_cases mp <;>
      · norm_num [doyOfMp] at hm1' hm2' hd0e
        norm_num [daysInMonth]
        omega
  · have hc : civilFromDays z = (E * 400 + (yoe : ℤ) + 1, mp - 9, d0 + 1) := by
      simp only [civilFromDays]
      rw [← hE, ← hdoe, hfd]
      simp [hq]
    rw [hc]
    refine ⟨show 1 ≤ mp - 9 by omega, show mp - 9 ≤ 12 by omega,
      show 1 ≤ d0 + 1 by omega, ?_⟩
    show d0 + 1 ≤ daysInMonth (E * 400 + (yoe : ℤ) + 1) (mp - 9)
    have hmp1011 : mp = 10 ∨ mp = 11 := by omega
    rcases hmp1011 with h10 | h11
    · subst h10
      norm_num [doyOfMp] at hm1' hm2' hd0e
      norm_num [daysInMonth]
      omega
    · subst h11
      norm_num [doyOfMp] at hm1' hm2' hd0e
      show d0 + 1 ≤ daysInMonth (E * 400 + (yoe : ℤ) + 1) 2
      by_cases hl : nextStart yoe - yearStart yoe = 366
      · have hleap : isLeap ((yoe : ℤ) + 1) = true := leapTable yoe hyoe400 hl
        have hleap' : isLeap (E * 400 + (yoe : ℤ) + 1) = true := by
          rw [show E * 400 + (yoe : ℤ) + 1 = E * 400 + ((yoe : ℤ) + 1) by ring,
            isLeap_mul400]
          exact hleap
        simp only [daysInMonth, hleap', if_pos]
        omega
      · have hd28 : d0 + 1 ≤ 28 := by omega
        simp only [daysInMonth]
        split_ifs <;> omega

/-- Numeric value of an ASCII digit, `None` on any other character. -/
def digitVal (c : Char) : Option ℕ :=
  if '0' ≤ c ∧ c ≤ '9' then some (c.toNat - 48) else none

/-- Greedy digit scan: the longest digit prefix and the rest of the
input (chrono's `scan::number` with unbounded width). -/
def takeDigits : List Char → List ℕ × List Char
  | [] => ([], [])
  | c :: rest =>
    match digitVal c with
    | some d =>
      let p := takeDigits rest
      (d :: p.1, p.2)
    | none => ([], c :: rest)

/-- Value of a most-significant-first digit list. -/
def digitsToNat (ds : List ℕ) : ℕ := ds.foldl (fun a d => 10 * a + d) 0

/-- Fixed-width digit field (chrono's bounded `scan::number`): exactly
`w` digits, returning the value and the rest of the input. -/
def parseFixed (w : ℕ) (l : List Char) : Option (ℕ × List Char) :=
  let pre := l.take w
  if pre.length = w ∧ pre.all (fun c => (digitVal c).isSome) then
    some (digitsToNat (pre.map (fun c => (digitVal c).getD 0)), l.drop w)
  else
    none

/-- Year field of chrono's `%Y` parser: a sign admits an unbounded digit
run, an unsigned year is a fixed-width four-digit field. -/
def parseYear : List Char → Option (ℤ × List Char)
  | [] => none
  | c :: rest =>
    if c = '-' then
      let p := takeDigits rest
      if p.1 = [] then none else some (-(digitsToNat p.1 : ℤ), p.2)
    else if c = '+' then
      let p := takeDigits rest
      if p.1 = [] then none else some ((digitsToNat p.1 : ℤ), p.2)
    else
      match parseFixed 4 (c :: rest) with
      | some (n, r) => some ((n : ℤ), r)
      | none => none

/-- Literal separator of the timestamp format. -/
def expectChar (c : Char) : List Char → Option (List Char)
  | [] => none
  | x :: rest => if x = c then some rest else none

/-- Field validity enforced by chrono when assembling a parsed
`NaiveDateTime`: month/day within the calendar, hour/minute/second in
range, year within chrono's representable `-262144..=262143`. -/
def validDT (y : ℤ) (mo d h mi s : ℕ) : Bool :=
  decide (-262144 ≤ y ∧ y ≤ 262143 ∧ 1 ≤ mo ∧ mo ≤ 12 ∧ 1 ≤ d ∧
    d ≤ daysInMonth y mo ∧ h < 24 ∧ mi < 60 ∧ s < 60)

/-- Model of `NaiveDateTime::parse_from_str(s, "%Y.%m.%d %H:%M:%S")`:
strict field-by-field parse of the whole input.  (chrono is lenient in a
few inessential ways — unpadded 1-digit fields, leading whitespace and
leap-second 60 are accepted there; this model fixes the canonical padded
form, which covers every timestamp the library itself emits.) -/
def parseTimestamp (l : List Char) : Option NaiveDateTime := do
  let (y, l1) ← parseYear l
  let l2 ← expectChar '.' l1
  let (mo, l3) ← parseFixed 2 l2
  let l4 ← expectChar '.' l3
  let (d, l5) ← parseFixed 2 l4
  let l6 ← expectChar ' ' l5
  let (h, l7) ← parseFixed 2 l6
  let l8 ← expectChar ':' l7
  let (mi, l9) ← parseFixed 2 l8
  let l10 ← expectChar ':' l9
  let (s, l11) ← parseFixed 2 l10
  if l11 = [] ∧ validDT y mo d h mi s then
    some ⟨y, mo, d, h, mi, s⟩
  else
    none

/-- Decimal digits of `n`, most significant first, by fuelled structural
recursion (kernel-reducible, unlike `Nat.digits`). -/
def digitsAux : ℕ → ℕ → List ℕ
  | _, 0 => []
  | 0, _ => []
  | fuel + 1, n => digitsAux fuel (n / 10) ++ [n % 10]

/-- Decimal digit characters of `n`, most significant first (empty for
`0`, which every caller pads). -/
def natDigits (n : ℕ) : List Char :=
  (digitsAux n n).map (fun d => Char.ofNat (48 + d))

/-- With enough fuel, the fuelled digit extraction agrees with
`Nat.digits`, most significant first. -/
theorem digitsAux_eq (fuel n : ℕ) (h : n ≤ fuel) :
    digitsAux fuel n = (Nat.digits 10 n).reverse := by
  induction fuel generalizing n with
  | zero =>
      interval_cases n
      simp [digitsAux]
  | succ f ih =>
      cases n with
      | zero => simp [digitsAux]
      | succ m =>
          rw [show digitsAux (f + 1) (m + 1) =
            digitsAux f ((m + 1) / 10) ++ [(m + 1) % 10] from rfl]
          rw [ih _ (by omega)]
          rw [Nat.digits_def' (by norm_num : (1 : ℕ) < 10) (Nat.succ_pos m)]
          simp

/-- Digit characters of `n` through `Nat.digits`. -/
theorem natDigits_eq (n : ℕ) :
    natDigits n = (Nat.digits 10 n).reverse.map
      (fun d => Char.ofNat (48 + d)) := by
  unfold natDigits
  rw [digitsAux_eq n n le_rfl]

/-- Zero-padding to width `w` (chrono's `Pad::Zero`). -/
def padNat (w n : ℕ) : List Char :=
  List.replicate (w - (natDigits n).length) '0' ++ natDigits n

/-- Model of chrono's `%Y` printer: zero-padded to four digits, with a
sign for years outside `0000..=9999`. -/
def formatYear (y : ℤ) : List Char :=
  if y < 0 then '-' :: padNat 4 (-y).toNat
  else if 9999 < y then '+' :: natDigits y.toNat
  else padNat 4 y.toNat

/-- Model of formatting with `"%Y.%m.%d %H:%M:%S"`. -/
def formatTimestamp (dt : NaiveDateTime) : List Char :=
  formatYear dt.year ++ '.' :: (padNat 2 dt.month ++ '.' :: (padNat 2 dt.day
    ++ ' ' :: (padNat 2 dt.hour ++ ':' :: (padNat 2 dt.minute
    ++ ':' :: padNat 2 dt.second))))

/-- Digit characters evaluate back to their value. -/
theorem digitVal_digitChar (d : ℕ) (h : d < 10) :
    digitVal (Char.ofNat (48 + d)) = some d := by
  interval_cases d <;> rfl

/-- Characters produced by `natDigits` are digits. -/
theorem natDigits_isDigit (n : ℕ) :
    ∀ c ∈ natDigits n, (digitVal c).isSome = true := by
  intro c hc
  rw [natDigits_eq] at hc
  simp only [List.mem_map, List.mem_reverse] at hc
  obtain ⟨d, hd, rfl⟩ := hc
  rw [digitVal_digitChar d (Nat.digits_lt_base (by norm_num) hd)]
  rfl

/-- Characters produced by `padNat` are digits. -/
theorem padNat_isDigit (w n : ℕ) :
    ∀ c ∈ padNat w n, (digitVal c).isSome = true := by
  intro c hc
  simp only [padNat, List.mem_append, List.mem_replicate] at hc
  rcases hc with ⟨-, rfl⟩ | hc
  · rfl
  · exact natDigits_isDigit n c hc

/-- Folding one more digit multiplies the accumulated value by ten. -/
theorem digitsToNat_append (X : List ℕ) (d : ℕ) :
    digitsToNat (X ++ [d]) = 10 * digitsToNat X + d := by
  simp [digitsToNat, List.foldl_append]

/-- The most-significant-first fold agrees with Mathlib's
little-endian `Nat.ofDigits`. -/
theorem digitsToNat_reverse (L : List ℕ) :
    digitsToNat L.reverse = Nat.ofDigits 10 L := by
  induction L with
  | nil => rfl
  | cons d L ih =>
      rw [List.reverse_cons, digitsToNat_append, ih, Nat.ofDigits_cons]
      ring

/-- Reading the characters of `natDigits n` recovers the digit list. -/
theorem natDigits_map_val (n : ℕ) :
    (natDigits n).map (fun c => (digitVal c).getD 0) =
      (Nat.digits 10 n).reverse := by
  rw [natDigits_eq]
  simp only [List.map_map]
  refine (List.map_congr_left ?_).trans (List.map_id _)
  intro d hd
  simp only [Function.comp]
  rw [digitVal_digitChar d (Nat.digits_lt_base (by norm_num)
    (List.mem_reverse.mp hd))]
  rfl

/-- Reading back the digit characters of `n` yields `n`. -/
theorem digitsToNat_natDigits (n : ℕ) :
    digitsToNat ((natDigits n).map (fun c => (digitVal c).getD 0)) = n := by
  rw [natDigits_map_val, digitsToNat_reverse, Nat.ofDigits_digits]

/-- Leading zeros do not change a digit fold. -/
theorem digitsToNat_replicate_zero (k : ℕ) (X : List ℕ) :
    digitsToNat (List.replicate k 0 ++ X) = digitsToNat X := by
  induction k with
  | zero => rfl
  | succ k ih =>
      rw [List.replicate_succ, List.cons_append]
      exact ih

/-- Reading back a zero-padded value yields the value. -/
theorem digitsToNat_padNat (w n : ℕ) :
    digitsToNat ((padNat w n).map (fun c => (digitVal c).getD 0)) = n := by
  simp only [padNat, List.map_append]
  have hz : (List.replicate (w - (natDigits n).length) '0').map
      (fun c => (digitVal c).getD 0) =
        List.replicate (w - (natDigits n).length) 0 := by
    rw [List.map_replicate]
    rfl
  rw [hz, digitsToNat_replicate_zero, digitsToNat_natDigits]

/-- Width of a zero-padded field. -/
theorem padNat_length (w n : ℕ) (h : n < 10 ^ w) :
    (padNat w n).length = w := by
  have hle : (Nat.digits 10 n).length ≤ w := by
    rcases Nat.eq_zero_or_pos n with rfl | hn
    · simp
    · rw [Nat.digits_len 10 n (by norm_num) (by omega)]
      have hlog := (Nat.lt_pow_iff_log_lt (by norm_num : 1 < 10)
        (by omega : n ≠ 0)).mp h
      omega
  have hnd : (natDigits n).length = (Nat.digits 10 n).length := by
    rw [natDigits_eq]
    simp
  simp only [padNat, List.length_append, List.length_replicate]
  omega

/-- A fixed-width field parses its own zero-padded rendering. -/
theorem parseFixed_padNat (w n : ℕ) (h : n < 10 ^ w) (r : List Char) :
    parseFixed w (padNat w n ++ r) = some (n, r) := by
  have hlen := padNat_length w n h
  have htake : (padNat w n ++ r).take w = padNat w n :=
    List.take_left' hlen
  have hdrop : (padNat w n ++ r).drop w = r :=
    List.drop_left' hlen
  simp only [parseFixed, htake, hdrop]
  rw [if_pos ⟨hlen, List.all_eq_true.mpr (fun c hc => padNat_isDigit w n c hc)⟩,
    digitsToNat_padNat]

/-- A greedy digit scan consumes exactly a digit block followed by a
non-digit remainder. -/
theorem takeDigits_append (ds r : List Char)
    (hds : ∀ c ∈ ds, (digitVal c).isSome = true)
    (hr : ∀ c rs, r = c :: rs → digitVal c = none) :
    takeDigits (ds ++ r) = (ds.map (fun c => (digitVal c).getD 0), r) := by
  induction ds with
  | nil =>
      simp only [List.nil_append, List.map_nil]
      cases r with
      | nil => rfl
      | cons c rs =>
          simp only [takeDigits]
          rw [hr c rs rfl]
  | cons c ds ih =>
      have hc := hds c (by simp)
      obtain ⟨d, hd⟩ := Option.isSome_iff_exists.mp hc
      simp only [List.cons_append, takeDigits, hd, List.append_eq]
      rw [ih (fun x hx => hds x (by simp [hx]))]
      simp [hd]

/-- Nonemptiness of the digit rendering of a positive number. -/
theorem natDigits_ne_nil (n : ℕ) (h : n ≠ 0) : natDigits n ≠ [] := by
  rw [natDigits_eq]
  simp only [ne_eq, List.map_eq_nil_iff, List.reverse_eq_nil_iff]
  exact Nat.digits_ne_nil_iff_ne_zero.mpr h

/-- Nonemptiness of a zero-padded field of positive width. -/
theorem padNat_ne_nil (w n : ℕ) (hw : 0 < w) : padNat w n ≠ [] := by
  intro h
  have := congrArg List.length h
  simp only [padNat, List.length_append, List.length_replicate,
    List.length_nil] at this
  omega

/-- Evaluation of the `%Y` parser on a leading minus sign. -/
theorem parseYear_neg_eval (rest : List Char) :
    parseYear ('-' :: rest) =
      (if (takeDigits rest).1 = [] then none
       else some (-(digitsToNat (takeDigits rest).1 : ℤ), (takeDigits rest).2)) := rfl

/-- Evaluation of the `%Y` parser on a leading plus sign. -/
theorem parseYear_plus_eval (rest : List Char) :
    parseYear ('+' :: rest) =
      (if (takeDigits rest).1 = [] then none
       else some ((digitsToNat (takeDigits rest).1 : ℤ), (takeDigits rest).2)) := rfl

/-- Evaluation of the `%Y` parser on an unsigned head character. -/
theorem parseYear_unsigned_eval (c : Char) (rest : List Char)
    (hm : ¬(c = '-')) (hp : ¬(c = '+')) :
    parseYear (c :: rest) =
      match parseFixed 4 (c :: rest) with
      | some (n, r) => some ((n : ℤ), r)
      | none => none := by
  simp only [parseYear, if_neg hm, if_neg hp]

/-- The `%Y` parser reads back every year the `%Y` printer can emit, as
long as the following character is not a digit. -/
theorem parseYear_format (y : ℤ) (r : List Char)
    (hr : ∀ c rs, r = c :: rs → digitVal c = none) :
    parseYear (formatYear y ++ r) = some (y, r) := by
  rcases lt_or_le y 0 with hneg | hnonneg
  · rw [formatYear, if_pos hneg, List.cons_append, parseYear_neg_eval,
      takeDigits_append _ _ (padNat_isDigit _ _) hr]
    rw [if_neg (by
      simp only [ne_eq, List.map_eq_nil_iff]
      exact padNat_ne_nil 4 _ (by norm_num))]
    rw [digitsToNat_padNat]
    have hcast : (((-y).toNat : ℕ) : ℤ) = -y := Int.toNat_of_nonneg (by omega)
    rw [hcast, neg_neg]
  · rcases le_or_lt y 9999 with hle | hgt
    · rw [formatYear, if_neg (by omega), if_neg (by omega)]
      have hpow : y.toNat < 10 ^ 4 := by omega
      have hnn : padNat 4 y.toNat ≠ [] := padNat_ne_nil 4 _ (by norm_num)
      obtain ⟨c0, cs, hpad⟩ : ∃ c0 cs, padNat 4 y.toNat = c0 :: cs := by
        cases hp : padNat 4 y.toNat with
        | nil => exact absurd hp hnn
        | cons a b => exact ⟨a, b, rfl⟩
      have hc0 : (digitVal c0).isSome = true :=
        padNat_isDigit _ _ c0 (by rw [hpad]; simp)
      have hm : ¬(c0 = '-') := by
        intro h
        rw [h] at hc0
        exact absurd hc0 (by decide)
      have hp : ¬(c0 = '+') := by
        intro h
        rw [h] at hc0
        exact absurd hc0 (by decide)
      rw [hpad, List.cons_append, parseYear_unsigned_eval c0 _ hm hp]
      rw [show c0 :: (cs ++ r) = padNat 4 y.toNat ++ r by rw [hpad]; rfl]
      rw [parseFixed_padNat 4 y.toNat hpow r]
      show some ((y.toNat : ℤ), r) = some (y, r)
      rw [Int.toNat_of_nonneg hnonneg]
    · rw [formatYear, if_neg (by omega), if_pos (by omega), List.cons_append,
        parseYear_plus_eval,
        takeDigits_append _ _ (natDigits_isDigit _) hr]
      rw [if_neg (by
        simp only [ne_eq, List.map_eq_nil_iff]
        exact natDigits_ne_nil _ (by omega))]
      rw [digitsToNat_natDigits, Int.toNat_of_nonneg (by omega)]

/-- The literal separator parser accepts its own character. -/
theorem expectChar_cons (c : Char) (l : List Char) :
    expectChar c (c :: l) = some l := by
  simp [expectChar]

/-- Every month length is at most 31. -/
theorem daysInMonth_le (y : ℤ) (m : ℕ) : daysInMonth y m ≤ 31 := by
  unfold daysInMonth
  split <;> first | (split_ifs <;> norm_num) | norm_num

/-- Parsing is a left inverse of formatting on valid datetimes. -/
theorem parseTimestamp_formatTimestamp (dt : NaiveDateTime)
    (h : validDT dt.year dt.month dt.day dt.hour dt.minute dt.second = true) :
    parseTimestamp (formatTimestamp dt) = some dt := by
  have hfields := of_decide_eq_true h
  obtain ⟨h1, h2, h3, h4, h5, h6, h7, h8, h9⟩ := hfields
  simp only [formatTimestamp, parseTimestamp]
  rw [parseYear_format dt.year _ (by intro c rs hc; cases hc; rfl)]
  simp only [Option.bind_eq_bind, Option.some_bind]
  rw [expectChar_cons]
  simp only [Option.some_bind]
  rw [parseFixed_padNat 2 dt.month (by omega) _]
  simp only [Option.some_bind]
  rw [expectChar_cons]
  simp only [Option.some_bind]
  rw [parseFixed_padNat 2 dt.day (by
    have := daysInMonth_le dt.year dt.month
    omega) _]
  simp only [Option.some_bind]
  rw [expectChar_cons]
  simp only [Option.some_bind]
  rw [parseFixed_padNat 2 dt.hour (by omega) _]
  simp only [Option.some_bind]
  rw [expectChar_cons]
  simp only [Option.some_bind]
  rw [parseFixed_padNat 2 dt.minute (by omega) _]
  simp only [Option.some_bind]
  rw [expectChar_cons]
  simp only [Option.some_bind]
  rw [show padNat 2 dt.second = padNat 2 dt.second ++ [] from
    (List.append_nil _).symm,
    parseFixed_padNat 2 dt.second (by omega) []]
  simp only [Option.some_bind]
  simp [h]

/-- Digit characters are never the underscore. -/
theorem not_mem_padNat (w n : ℕ) : '_' ∉ padNat w n := by
  intro hm
  exact absurd (padNat_isDigit w n _ hm) (by decide)

/-- Digit characters are never the underscore. -/
theorem not_mem_natDigits (n : ℕ) : '_' ∉ natDigits n := by
  intro hm
  exact absurd (natDigits_isDigit n _ hm) (by decide)

/-- The year rendering never contains an underscore. -/
theorem formatYear_no_underscore (y : ℤ) : '_' ∉ formatYear y := by
  unfold formatYear
  split_ifs
  · intro hm
    rcases List.mem_cons.mp hm with h | h
    · exact absurd h (by decide)
    · exact not_mem_padNat _ _ h
  · intro hm
    rcases List.mem_cons.mp hm with h | h
    · exact absurd h (by decide)
    · exact not_mem_natDigits _ h
  · exact not_mem_padNat _ _

/-- The timestamp rendering never contains an underscore, so the
timestamp survives a later split on `'_'` intact. -/
theorem formatTimestamp_no_underscore (dt : NaiveDateTime) :
    '_' ∉ formatTimestamp dt := by
  intro hm
  simp only [formatTimestamp, List.mem_append, List.mem_cons] at hm
  rcases hm with h | h | h | h | h | h | h | h | h | h | h <;>
    first
      | exact formatYear_no_underscore _ h
      | exact absurd h (by decide)
      | exact not_mem_padNat _ _ h

/-- Model of Rust's `str::split('_')`: the underscore-separated pieces,
empty pieces included; one more piece than separators. -/
def splitU : List Char → List (List Char)
  | [] => [[]]
  | c :: rest =>
    if c = '_' then [] :: splitU rest
    else
      match splitU rest with
      | [] => [[c]]
      | p :: ps => (c :: p) :: ps

/-- Model of joining with `"_"` (Rust's `join("_")`). -/
def joinU : List (List Char) → List Char
  | [] => []
  | [p] => p
  | p :: ps => p ++ '_' :: joinU ps

/-- Splitting always produces at least one piece. -/
theorem splitU_ne_nil (l : List Char) : splitU l ≠ [] := by
  induction l with
  | nil => simp [splitU]
  | cons c rest ih =>
      simp only [splitU]
      split_ifs
      · simp
      · rcases h : splitU rest with _ | ⟨p, ps⟩ <;> simp [h]

/-- No piece produced by splitting contains the separator. -/
theorem splitU_no_underscore (l : List Char) :
    ∀ p ∈ splitU l, '_' ∉ p := by
  induction l with
  | nil =>
      intro p hp
      simp only [splitU, List.mem_singleton] at hp
      subst hp
      simp
  | cons c rest ih =>
      intro p hp
      simp only [splitU] at hp
      split_ifs at hp with hc
      · rcases List.mem_cons.mp hp with rfl | hp
        · simp
        · exact ih p hp
      · rcases h : splitU rest with _ | ⟨q, qs⟩
        · exact absurd h (splitU_ne_nil rest)
        · rw [h] at hp
          rcases List.mem_cons.mp hp with rfl | hp2
          · intro hmem
            rcases List.mem_cons.mp hmem with h1 | h2
            · exact hc h1.symm
            · exact ih q (by rw [h]; simp) h2
          · exact ih p (by rw [h]; simp [hp2])

/-- Splitting a separator-free string yields that single piece. -/
theorem splitU_no_underscore_eq (t : List Char) (h : '_' ∉ t) :
    splitU t = [t] := by
  induction t with
  | nil => rfl
  | cons c rest ih =>
      have hc : ¬(c = '_') := by
        intro hh
        exact h (by simp [hh])
      simp only [splitU, if_neg hc]
      rw [ih (fun hm => h (List.mem_cons_of_mem _ hm))]

/-- Splitting distributes over a separator: pieces of the left part
followed by pieces of the right part. -/
theorem splitU_append (s t : List Char) :
    splitU (s ++ '_' :: t) = splitU s ++ splitU t := by
  induction s with
  | nil => simp [splitU]
  | cons c rest ih =>
      simp only [List.cons_append, splitU, List.append_eq]
      split_ifs with hc
      · rw [ih]
        simp
      · rw [ih]
        rcases hsr : splitU rest with _ | ⟨p, ps⟩
        · exact absurd hsr (splitU_ne_nil rest)
        · simp [hsr]

/-- Splitting a join of separator-free pieces recovers the pieces. -/
theorem splitU_joinU (ps : List (List Char)) (hne : ps ≠ [])
    (h : ∀ p ∈ ps, '_' ∉ p) : splitU (joinU ps) = ps := by
  induction ps with
  | nil => exact absurd rfl hne
  | cons p ps ih =>
      cases ps with
      | nil => exact splitU_no_underscore_eq p (h p (by simp))
      | cons q qs =>
          rw [show joinU (p :: q :: qs) = p ++ '_' :: joinU (q :: qs) from rfl,
            splitU_append,
            ih (by simp) (fun x hx => h x (List.mem_cons_of_mem _ hx)),
            splitU_no_underscore_eq p (h p (by simp))]
          rfl

/-- ASCII lowercasing; the effect of Rust's `str::to_lowercase` as far
as the precision tokens are concerned (no non-ASCII character lowercases
into the ASCII token alphabet, so token matching is unaffected). -/
def toLowerAscii (l : List Char) : List Char :=
  l.map fun c =>
    if 'A' ≤ c ∧ c ≤ 'Z' then Char.ofNat (c.toNat + 32) else c

/-- Embedded from `round_datetime_to_precision` (expression_functions.rs
lines 190-205), with chrono's calendar arithmetic modelled as described
in the header.  The match arms appear in source order; note the `"1M"`
arm compares against an upper-case `M` although every caller lowercases
the token first.  In the `"1w"` arm, `datetime - Duration::days(..)`
panics (modelled as `none`) when the result leaves chrono's
representable range, which happens exactly when the year leaves
`-262144..=262143`. -/
def round_datetime_to_precision (datetime : NaiveDateTime)
    (precision : List Char) : Option (Except Error NaiveDateTime) :=
  if precision = "m1".toList then
    some (.ok { datetime with second := 0 })
  else if precision = "m5".toList then
    some (.ok { datetime with minute := datetime.minute / 5 * 5, second := 0 })
  else if precision = "m15".toList then
    some (.ok { datetime with minute := datetime.minute / 15 * 15, second := 0 })
  else if precision = "m30".toList then
    some (.ok { datetime with minute := datetime.minute / 30 * 30, second := 0 })
  else if precision = "h1".toList then
    some (.ok { datetime with minute := 0, second := 0 })
  else if precision = "h4".toList then
    some (.ok
      { datetime with hour := datetime.hour / 4 * 4, minute := 0, second := 0 })
  else if precision = "d1".toList then
    some (.ok { datetime with hour := 0, minute := 0, second := 0 })
  else if precision = "1w".toList then
    let rd := daysFromCivil datetime.year datetime.month datetime.day
    let rd2 := rd - num_days_from_sunday rd
    let c := civilFromDays rd2
    if c.1 < -262144 ∨ 262143 < c.1 then
      none
    else
      some (.ok ⟨c.1, c.2.1, c.2.2, 0, 0, 0⟩)
  else if precision = "1M".toList then
    some (.ok { datetime with day := 1, hour := 0, minute := 0, second := 0 })
  else
    some (.error (.CustomError ("Precision ".toList ++ precision ++
      " is not recognised".toList)))

/-- Embedded from `round_date_to_precision` (expression_functions.rs
lines 207-229): split on `'_'`, parse the last piece, lowercase the
precision, round, and re-join the untouched prefix with the re-formatted
timestamp. -/
def round_date_to_precision (string precision : Value) :
    Option (Except Error Value) :=
  match string, precision with
  | .String s, .String prec =>
    let parts := splitU s
    match parts.getLast? with
    | none => some (.error .InvalidInputString)
    | some datetime_str =>
      match parseTimestamp datetime_str with
      | none => some (.error .InvalidDateFormat)
      | some dt =>
        match round_datetime_to_precision dt (toLowerAscii prec) with
        | none => none
        | some (.error e) => some (.error e)
        | some (.ok rdt) =>
          let string1 := joinU parts.dropLast
          let string2 := if string1.length > 0 then string1 ++ ['_']
            else string1
          some (.ok (.String (string2 ++ formatTimestamp rdt)))
  | _, _ => some (.error .InvalidArgumentType)

/-- Unfolding of the validity test into its component bounds. -/
theorem validDT_iff (y : ℤ) (mo d h mi s : ℕ) :
    validDT y mo d h mi s = true ↔
      (-262144 ≤ y ∧ y ≤ 262143 ∧ 1 ≤ mo ∧ mo ≤ 12 ∧ 1 ≤ d ∧
        d ≤ daysInMonth y mo ∧ h < 24 ∧ mi < 60 ∧ s < 60) := by
  simp [validDT]

/-- A successful parse only produces valid datetimes. -/
theorem parseTimestamp_valid (l : List Char) (dt : NaiveDateTime)
    (h : parseTimestamp l = some dt) :
    validDT dt.year dt.month dt.day dt.hour dt.minute dt.second = true := by
  simp only [parseTimestamp, Option.bind_eq_bind, Option.bind_eq_some] at h
  obtain ⟨⟨y, l1⟩, -, l2, -, ⟨mo, l3⟩, -, l4, -, ⟨d, l5⟩, -, l6, -,
    ⟨hh, l7⟩, -, l8, -, ⟨mi, l9⟩, -, l10, -, ⟨s, l11⟩, -, hlast⟩ := h
  split_ifs at hlast with hcond
  · obtain ⟨-, hvalid⟩ := hcond
    obtain rfl : dt = ⟨y, mo, d, hh, mi, s⟩ := by
      cases hlast
      rfl
    exact hvalid

/-- Subtracting the days-since-Sunday lands on a Sunday. -/
theorem num_days_from_sunday_round (rd : ℤ) :
    num_days_from_sunday (rd - num_days_from_sunday rd) = 0 := by
  unfold num_days_from_sunday
  omega

/-- Evaluation of the precision switch at the `"m1"` token. -/
theorem round_eval_m1 (datetime : NaiveDateTime) :
    round_datetime_to_precision datetime ("m1".toList) =
      some (.ok { datetime with second := 0 }) := rfl

/-- Evaluation of the precision switch at the `"m5"` token. -/
theorem round_eval_m5 (datetime : NaiveDateTime) :
    round_datetime_to_precision datetime ("m5".toList) =
      some (.ok { datetime with minute := datetime.minute / 5 * 5, second := 0 }) := rfl

/-- Evaluation of the precision switch at the `"m15"` token. -/
theorem round_eval_m15 (datetime : NaiveDateTime) :
    round_datetime_to_precision datetime ("m15".toList) =
      some (.ok { datetime with minute := datetime.minute / 15 * 15, second := 0 }) := rfl

/-- Evaluation of the precision switch at the `"m30"` token. -/
theorem round_eval_m30 (datetime : NaiveDateTime) :
    round_datetime_to_precision datetime ("m30".toList) =
      some (.ok { datetime with minute := datetime.minute / 30 * 30, second := 0 }) := rfl

/-- Evaluation of the precision switch at the `"h1"` token. -/
theorem round_eval_h1 (datetime : NaiveDateTime) :
    round_datetime_to_precision datetime ("h1".toList) =
      some (.ok { datetime with minute := 0, second := 0 }) := rfl

/-- Evaluation of the precision switch at the `"h4"` token. -/
theorem round_eval_h4 (datetime : NaiveDateTime) :
    round_datetime_to_precision datetime ("h4".toList) =
      some (.ok { datetime with hour := datetime.hour / 4 * 4, minute := 0, second := 0 }) := rfl

/-- Evaluation of the precision switch at the `"d1"` token. -/
theorem round_eval_d1 (datetime : NaiveDateTime) :
    round_datetime_to_precision datetime ("d1".toList) =
      some (.ok { datetime with hour := 0, minute := 0, second := 0 }) := rfl

/-- Evaluation of the precision switch at the `"1w"` token. -/
theorem round_eval_1w (datetime : NaiveDateTime) :
    round_datetime_to_precision datetime ("1w".toList) =
      (if (civilFromDays (daysFromCivil datetime.year datetime.month
            datetime.day - num_days_from_sunday (daysFromCivil datetime.year
            datetime.month datetime.day))).1 < -262144 ∨
          262143 < (civilFromDays (daysFromCivil datetime.year datetime.month
            datetime.day - num_days_from_sunday (daysFromCivil datetime.year
            datetime.month datetime.day))).1 then
        none
      else
        some (.ok ⟨(civilFromDays (daysFromCivil datetime.year datetime.month
          datetime.day - num_days_from_sunday (daysFromCivil datetime.year
          datetime.month datetime.day))).1,
          (civilFromDays (daysFromCivil datetime.year datetime.month
          datetime.day - num_days_from_sunday (daysFromCivil datetime.year
          datetime.month datetime.day))).2.1,
          (civilFromDays (daysFromCivil datetime.year datetime.month
          datetime.day - num_days_from_sunday (daysFromCivil datetime.year
          datetime.month datetime.day))).2.2, 0, 0, 0⟩)) := rfl

/-- Evaluation of the precision switch at the dead `"1M"` arm. -/
theorem round_eval_1M (datetime : NaiveDateTime) :
    round_datetime_to_precision datetime ("1M".toList) =
      some
        (.ok { datetime with day := 1, hour := 0, minute := 0, second := 0 })
      := rfl

/-- Evaluation of the precision switch at an unknown token. -/
theorem round_eval_unknown (datetime : NaiveDateTime) (lp : List Char)
    (n1 : ¬(lp = "m1".toList)) (n2 : ¬(lp = "m5".toList))
    (n3 : ¬(lp = "m15".toList)) (n4 : ¬(lp = "m30".toList))
    (n5 : ¬(lp = "h1".toList)) (n6 : ¬(lp = "h4".toList))
    (n7 : ¬(lp = "d1".toList)) (n8 : ¬(lp = "1w".toList))
    (n9 : ¬(lp = "1M".toList)) :
    round_datetime_to_precision datetime lp =
      some (.error (.CustomError ("Precision ".toList ++ lp ++
        " is not recognised".toList))) := by
  simp only [round_datetime_to_precision, if_neg n1, if_neg n2, if_neg n3,
    if_neg n4, if_neg n5, if_neg n6, if_neg n7, if_neg n8, if_neg n9]

set_option maxHeartbeats 1000000 in
/-- A rounding that returns a value returns a valid datetime and is a
fixed point: rounding the result again at the same token is the
identity. -/
theorem round_datetime_ok (dt rdt : NaiveDateTime) (lp : List Char)
    (hv : validDT dt.year dt.month dt.day dt.hour dt.minute dt.second = true)
    (h : round_datetime_to_precision dt lp = some (.ok rdt)) :
    validDT rdt.year rdt.month rdt.day rdt.hour rdt.minute rdt.second
        = true ∧
      round_datetime_to_precision rdt lp = some (.ok rdt) := by
  obtain ⟨y, mo, d, hh, mi, s⟩ := dt
  dsimp only at hv h
  obtain ⟨g1, g2, g3, g4, g5, g6, g7, g8, g9⟩ := (validDT_iff _ _ _ _ _ _).mp hv
  have h28 : 28 ≤ daysInMonth y mo := by
    interval_cases mo <;> simp [daysInMonth] <;> split_ifs <;> omega
  by_cases t1 : lp = "m1".toList
  · subst t1
    rw [round_eval_m1] at h
    simp only [Option.some.injEq, Except.ok.injEq] at h
    subst h
    refine ⟨?_, ?_⟩
    · dsimp only
      rw [validDT_iff]
      exact ⟨g1, g2, g3, g4, g5, g6, by omega, by omega, by omega⟩
    · rw [round_eval_m1]
  by_cases t2 : lp = "m5".toList
  · subst t2
    rw [round_eval_m5] at h
    simp only [Option.some.injEq, Except.ok.injEq] at h
    subst h
    refine ⟨?_, ?_⟩
    · dsimp only
      rw [validDT_iff]
      exact ⟨g1, g2, g3, g4, g5, g6, by omega, by omega, by omega⟩
    · rw [round_eval_m5]
      dsimp only
      simp only [Option.some.injEq, Except.ok.injEq, NaiveDateTime.mk.injEq,
        and_true, true_and]
      omega
  by_cases t3 : lp = "m15".toList
  · subst t3
    rw [round_eval_m15] at h
    simp only [Option.some.injEq, Except.ok.injEq] at h
    subst h
    refine ⟨?_, ?_⟩
    · dsimp only
      rw [validDT_iff]
      exact ⟨g1, g2, g3, g4, g5, g6, by omega, by omega, by omega⟩
    · rw [round_eval_m15]
      dsimp only
      simp only [Option.some.injEq, Except.ok.injEq, NaiveDateTime.mk.injEq,
        and_true, true_and]
      omega
  by_cases t4 : lp = "m30".toList
  · subst t4
    rw [round_eval_m30] at h
    simp only [Option.some.injEq, Except.ok.injEq] at h
    subst h
    refine ⟨?_, ?_⟩
    · dsimp only
      rw [validDT_iff]
      exact ⟨g1, g2, g3, g4, g5, g6, by omega, by omega, by omega⟩
    · rw [round_eval_m30]
      dsimp only
      simp only [Option.some.injEq, Except.ok.injEq, NaiveDateTime.mk.injEq,
        and_true, true_and]
      omega
  by_cases t5 : lp = "h1".toList
  · subst t5
    rw [round_eval_h1] at h
    simp only [Option.some.injEq, Except.ok.injEq] at h
    subst h
    refine ⟨?_, ?_⟩
    · dsimp only
      rw [validDT_iff]
      exact ⟨g1, g2, g3, g4, g5, g6, by omega, by omega, by omega⟩
    · rw [round_eval_h1]
  by_cases t6 : lp = "h4".toList
  · subst t6
    rw [round_eval_h4] at h
    simp only [Option.some.injEq, Except.ok.injEq] at h
    subst h
    refine ⟨?_, ?_⟩
    · dsimp only
      rw [validDT_iff]
      exact ⟨g1, g2, g3, g4, g5, g6, by omega, by omega, by omega⟩
    · rw [round_eval_h4]
      dsimp only
      simp only [Option.some.injEq, Except.ok.injEq, NaiveDateTime.mk.injEq,
        and_true, true_and]
      omega
  by_cases t7 : lp = "d1".toList
  · subst t7
    rw [round_eval_d1] at h
    simp only [Option.some.injEq, Except.ok.injEq] at h
    subst h
    refine ⟨?_, ?_⟩
    · dsimp only
      rw [validDT_iff]
      exact ⟨g1, g2, g3, g4, g5, g6, by omega, by omega, by omega⟩
    · rw [round_eval_d1]
  by_cases t8 : lp = "1w".toList
  · subst t8
    rw [round_eval_1w] at h
    dsimp only at h
    split_ifs at h with hrange
    simp only [Option.some.injEq, Except.ok.injEq] at h
    subst h
    push_neg at hrange
    obtain ⟨hv1, hv2, hv3, hv4⟩ :=
      civilFromDays_valid (daysFromCivil y mo d -
        num_days_from_sunday (daysFromCivil y mo d))
    refine ⟨?_, ?_⟩
    · dsimp only
      rw [validDT_iff]
      exact ⟨hrange.1, hrange.2, hv1, hv2, hv3, hv4, by omega, by omega,
        by omega⟩
    · rw [round_eval_1w]
      dsimp only
      rw [daysFromCivil_civilFromDays, num_days_from_sunday_round,
        sub_zero]
      rw [if_neg (by push_neg; exact hrange)]
  by_cases t9 : lp = "1M".toList
  · subst t9
    rw [round_eval_1M] at h
    simp only [Option.some.injEq, Except.ok.injEq] at h
    subst h
    refine ⟨?_, ?_⟩
    · dsimp only
      rw [validDT_iff]
      exact ⟨g1, g2, g3, g4, by omega, by omega, by omega, by omega, by omega⟩
    · rw [round_eval_1M]
  rw [round_eval_unknown _ _ t1 t2 t3 t4 t5 t6 t7 t8 t9] at h
  exact absurd h (by simp)

/-- Errors of the precision switch are always the unknown-token
`CustomError`; in particular never `InvalidInputString`. -/
theorem round_datetime_errors (dt : NaiveDateTime) (lp : List Char)
    (e : Error) (h : round_datetime_to_precision dt lp = some (.error e)) :
    e = .CustomError ("Precision ".toList ++ lp ++
      " is not recognised".toList) := by
  simp only [round_datetime_to_precision] at h
  split_ifs at h <;> simp_all

/-- Evaluation of `round_date_to_precision` on the successful path,
expressed through the three intermediate results. -/
theorem round_date_eval (k p ts : List Char) (dt rdt : NaiveDateTime)
    (hlast : (splitU k).getLast? = some ts)
    (hp : parseTimestamp ts = some dt)
    (hr : round_datetime_to_precision dt (toLowerAscii p) = some (.ok rdt)) :
    round_date_to_precision (.String k) (.String p) =
      some (.ok (.String
        ((if (joinU (splitU k).dropLast).length > 0 then
            joinU (splitU k).dropLast ++ ['_']
          else
            joinU (splitU k).dropLast) ++ formatTimestamp rdt))) := by
  simp only [round_date_to_precision, hlast, hp, hr]

/-- Recogniser for the `InvalidInputString` outcome, used to state that
`round_date_to_precision` never produces it. -/
def isInvalidInputStringResult : Option (Except Error Value) → Bool
  | some (.error .InvalidInputString) => true
  | _ => false

end ExprFn

section DateClaims

open ExprFn (Value Error NaiveDateTime round_date_to_precision
  round_datetime_to_precision splitU joinU parseTimestamp formatTimestamp
  toLowerAscii isInvalidInputStringResult)

/-- C1 failing input: with the precision token `1M` (in either letter
case) the rounding errors out instead of flooring to the first of the
month — the token is lowercased to `1m` before the match, whose arm
reads `"1M"` and is therefore unreachable. -/
theorem C1_round_date_1M_fails :
    round_date_to_precision
        (.String ("BTCUSD_2024.02.13 10:05:23".toList))
        (.String ("1M".toList)) =
      some (.error (.CustomError ("Precision 1m is not recognised".toList))) ∧
    round_date_to_precision
        (.String ("BTCUSD_2024.02.13 10:05:23".toList))
        (.String ("1m".toList)) =
      some (.error (.CustomError ("Precision 1m is not recognised".toList)))
    := ⟨rfl, rfl⟩

/-- C10: `round_date_to_precision` never reports `InvalidInputString`
for string arguments: splitting on `'_'` always yields at least one
piece, so an unparsable timestamp surfaces as `InvalidDateFormat` (and a
bad precision as a `CustomError`). -/
theorem C10_round_date_never_invalid_input_string (s p : List Char) :
    isInvalidInputStringResult
      (round_date_to_precision (.String s) (.String p)) = false := by
  rcases hlast : (splitU s).getLast? with - | ts
  · exact absurd (List.getLast?_eq_none_iff.mp hlast) (ExprFn.splitU_ne_nil s)
  · rcases hp : parseTimestamp ts with - | dt
    · simp [ExprFn.round_date_to_precision, hlast, hp,
        ExprFn.isInvalidInputStringResult]
    · rcases hr : round_datetime_to_precision dt (toLowerAscii p)
        with - | res
      · simp [ExprFn.round_date_to_precision, hlast, hp, hr,
          ExprFn.isInvalidInputStringResult]
      · rcases res with e | rdt
        · have he := ExprFn.round_datetime_errors dt (toLowerAscii p) e hr
          subst he
          simp [ExprFn.round_date_to_precision, hlast, hp, hr,
            ExprFn.isInvalidInputStringResult]
        · simp [ExprFn.round_date_to_precision, hlast, hp, hr,
            ExprFn.isInvalidInputStringResult]

/-- C6: rounding is idempotent — whenever the first application returns
a key, applying the same precision to that key returns it unchanged. -/
theorem C6_round_date_idempotent (k p s : List Char)
    (h : round_date_to_precision (.String k) (.String p) =
      some (.ok (.String s))) :
    round_date_to_precision (.String s) (.String p) =
      some (.ok (.String s)) := by
  rcases hlast : (splitU k).getLast? with - | ts
  · simp only [ExprFn.round_date_to_precision, hlast] at h
    exact absurd h (by simp)
  · rcases hp : parseTimestamp ts with - | dt
    · simp only [ExprFn.round_date_to_precision, hlast, hp] at h
      exact absurd h (by simp)
    · rcases hr : round_datetime_to_precision dt (toLowerAscii p)
        with - | res
      · simp only [ExprFn.round_date_to_precision, hlast, hp, hr] at h
        exact absurd h (by simp)
      · rcases res with e | rdt
        · simp only [ExprFn.round_date_to_precision, hlast, hp, hr] at h
          exact absurd h (by simp)
        · rw [ExprFn.round_date_eval k p ts dt rdt hlast hp hr] at h
          simp only [Option.some.injEq, Except.ok.injEq,
            ExprFn.Value.String.injEq] at h
          subst h
          have hvdt := ExprFn.parseTimestamp_valid ts dt hp
          obtain ⟨hvrdt, hfix⟩ :=
            ExprFn.round_datetime_ok dt rdt (toLowerAscii p) hvdt hr
          have hFparse := ExprFn.parseTimestamp_formatTimestamp rdt hvrdt
          have hFnou := ExprFn.formatTimestamp_no_underscore rdt
          set ps := (splitU k).dropLast with hps
          set J := joinU ps with hJdef
          by_cases hJ : J.length > 0
          · have hps_ne : ps ≠ [] := by
              intro h0
              rw [h0] at hJdef
              rw [show J = [] from hJdef] at hJ
              simp at hJ
            have hnou_ps : ∀ q ∈ ps, '_' ∉ q := by
              intro q hq
              rw [hps] at hq
              exact ExprFn.splitU_no_underscore k q
                (List.mem_of_mem_dropLast hq)
            have hsplitJ : splitU J = ps := by
              rw [hJdef]
              exact ExprFn.splitU_joinU ps hps_ne hnou_ps
            rw [if_pos hJ]
            have hassoc : (J ++ ['_']) ++ formatTimestamp rdt =
                J ++ '_' :: formatTimestamp rdt := by
              simp
            rw [hassoc]
            have hsplits : splitU (J ++ '_' :: formatTimestamp rdt) =
                ps ++ [formatTimestamp rdt] := by
              rw [ExprFn.splitU_append,
                ExprFn.splitU_no_underscore_eq _ hFnou, hsplitJ]
            rw [ExprFn.round_date_eval _ p (formatTimestamp rdt) rdt rdt
              (by rw [hsplits]; exact List.getLast?_concat _)
              hFparse hfix]
            rw [show (splitU (J ++ '_' :: formatTimestamp rdt)).dropLast = ps
              from by rw [hsplits]; exact List.dropLast_concat]
            rw [← hJdef, if_pos hJ, hassoc]
          · have hJnil : J = [] := List.length_eq_zero.mp (by omega)
            rw [if_neg hJ, hJnil, List.nil_append]
            have hsplitF : splitU (formatTimestamp rdt) =
                [formatTimestamp rdt] :=
              ExprFn.splitU_no_underscore_eq _ hFnou
            rw [ExprFn.round_date_eval _ p (formatTimestamp rdt) rdt rdt
              (by rw [hsplitF]; rfl) hFparse hfix]
            rw [hsplitF]
            simp [ExprFn.joinU]

/-- C6 witness: the spec's own `m1` scenario — rounding
`BTCUSD_2024.02.13 10:05:23` to the minute gives
`BTCUSD_2024.02.13 10:05:00`, and rounding that again is the
identity. -/
theorem C6_round_date_idempotent_witness :
    round_date_to_precision
        (.String ("BTCUSD_2024.02.13 10:05:00".toList))
        (.String ("m1".toList)) =
      some (.ok (.String ("BTCUSD_2024.02.13 10:05:00".toList))) :=
  C6_round_date_idempotent ("BTCUSD_2024.02.13 10:05:23".toList)
    ("m1".toList) ("BTCUSD_2024.02.13 10:05:00".toList) (by rfl)

end DateClaims

